import Mathlib

/-!
Shallow embedding of `local/utils.go` from the ddev repository: the container
aggregation used by `SiteList` / `ProcessContainer`, the port lookup helpers
`GetPort` / `GetPodPort`, the legacy file filter, and the pluralization helper.

Go machine details modelled: `int64` ports become `Int` (only copied and
compared to zero, never arithmetic, so no wraparound is reachable);
`container.Names[0][1:]` (dropping the leading `/` byte) becomes
`String.drop 1`; Go `map[string]LegacyApp` becomes `String → Option LegacyApp`
with pointwise update; `strings.Split` becomes `String.splitOn` (identical
semantics for a non-empty one-character separator on these inputs).
-/

/-- Modelled from the spec: the published-port entry of a container as seen by
the docker client library (`docker.APIPort`); only the `PublicPort` field is
read by the code under `src/`. -/
structure APIPort where
  PublicPort : Int
deriving Repr, DecidableEq

/-- Modelled from the spec: the container snapshot entry
(`docker.APIContainers`); the fields `Names`, `Ports` and `State` are the ones
the code under `src/` reads. -/
structure APIContainers where
  Names : List String
  Ports : List APIPort
  State : String
deriving Repr, DecidableEq

/-- Modelled from the spec: the `LegacyApp` record (the spec's
ApplicationRecord); its definition is not under `src/`, but its fields
`Name`, `Environment`, `Status`, `WebPublicPort`, `DbPublicPort` are exactly
the ones `ProcessContainer` assigns, with Go zero values on creation. -/
structure LegacyApp where
  Name : String
  Environment : String
  Status : String
  WebPublicPort : Int
  DbPublicPort : Int
deriving Repr, DecidableEq

/-- The Go `map[string]LegacyApp`, embedded as a pointwise function. -/
def AppMap : Type := String → Option LegacyApp

/-- An empty Go map. -/
def emptyMap : AppMap := fun _ => none

/-- Go map assignment `l[k] = v`. -/
def mapUpdate (l : AppMap) (k : String) (v : LegacyApp) : AppMap :=
  fun k2 => if k2 = k then some v else l k2

/-- Embeds `FormatPlural` (utils.go:227): returns `single` when the count is
one, `plural` otherwise. Go `int` becomes `Int` (only an equality test). -/
def FormatPlural (count : Int) (single : String) (plural : String) : String :=
  if count = 1 then single else plural

/-- Embeds `IsValidLegacyEnv` (utils.go:212): the loop over
`{"default", "staging", "production"}` with early break is `List.any`. -/
def IsValidLegacyEnv (s : String) : Bool :=
  ["default", "staging", "production"].any (fun e => s == e)

/-- Go `strings.HasPrefix(s, p)`, computed on the character lists so that the
kernel can evaluate it on concrete strings. -/
def strStartsWith (s p : String) : Bool :=
  p.toList.isPrefixOf s.toList

/-- Go `strings.HasSuffix(s, p)`, computed on the character lists. -/
def strEndsWith (s p : String) : Bool :=
  p.toList.isSuffixOf s.toList

/-- Accumulator loop of `splitOnDash`: the characters of the current segment
are collected in reverse in `acc`. -/
def splitDashAux : List Char → List Char → List (List Char)
  | [], acc => [acc.reverse]
  | c :: rest, acc =>
    if c = '-' then acc.reverse :: splitDashAux rest [] else splitDashAux rest (c :: acc)

/-- Go `strings.Split(s, "-")`: every maximal dash-free run becomes a segment,
with empty segments around consecutive or terminal dashes, and `[""]` for the
empty string. -/
def splitOnDash (s : String) : List String :=
  (splitDashAux s.toList []).map (fun cs => ⟨cs⟩)

/-- Accumulator loop of `splitN2`: stop at the first dash and keep the rest of
the string intact as the second component. -/
def splitN2Aux : List Char → List Char → List String
  | [], acc => [⟨acc.reverse⟩]
  | c :: rest, acc =>
    if c = '-' then [⟨acc.reverse⟩, ⟨rest⟩] else splitN2Aux rest (c :: acc)

/-- Go `strings.SplitN(s, "-", 2)`: split on the first dash only, keeping the
remainder intact as the second component; no dash gives a singleton. -/
def splitN2 (s : String) : List String :=
  splitN2Aux s.toList []

/-- Embeds `FilterNonLegacyFiles` (utils.go:196) on the file names (the only
field of `os.FileInfo` the code reads): keep an entry when `SplitN(name,"-",2)`
yields exactly two components and the second is a valid legacy environment. -/
def FilterNonLegacyFiles : List String → List String
  | [] => []
  | v :: rest =>
    let parts := splitN2 v
    if parts.length ≠ 2 || !IsValidLegacyEnv parts[1]! then
      FilterNonLegacyFiles rest
    else
      v :: FilterNonLegacyFiles rest

/-- Embeds `ProcessContainer` (utils.go:284). Go first inserts a fresh record
when the key is missing and then re-reads it; the embedding computes that
read-back directly (`app0`) and performs the single observable write at the
end, which is the same map transformation. The port loop carries no break, so
a later nonzero entry overwrites an earlier one. -/
def ProcessContainer (l : AppMap) (containerName : String) (container : APIContainers) : AppMap :=
  let parts := splitOnDash containerName
  if parts.length = 4 then
    let appid := parts[1]! ++ "-" ++ parts[2]!
    let app0 : LegacyApp :=
      match l appid with
      | some a => a
      | none =>
        { Name := parts[1]!, Environment := parts[2]!, Status := container.State,
          WebPublicPort := 0, DbPublicPort := 0 }
    let publicPort : Int :=
      container.Ports.foldl (fun acc port => if port.PublicPort ≠ 0 then port.PublicPort else acc) 0
    let app1 := if parts[3]! = "web" then { app0 with WebPublicPort := publicPort } else app0
    let app2 := if parts[3]! = "db" then { app1 with DbPublicPort := publicPort } else app1
    let app3 := if container.State ≠ "running" then { app2 with Status := container.State } else app2
    mapUpdate l appid app3
  else
    l

/-- The name-classification loop body of `SiteList` (utils.go:238): scan the
container's names in order; a name whose tail starts with `legacy-` feeds the
legacy map, a name whose tail ends with `-db` or `-web` feeds the local map,
and either match breaks out of the name loop. -/
def processNames (legacyMap : AppMap) (localMap : AppMap) (container : APIContainers) :
    List String → AppMap × AppMap
  | [] => (legacyMap, localMap)
  | containerName :: rest =>
    if strStartsWith (containerName.drop 1) "legacy-" then
      (ProcessContainer legacyMap (containerName.drop 1) container, localMap)
    else if strEndsWith (containerName.drop 1) "-db" || strEndsWith (containerName.drop 1) "-web" then
      (legacyMap, ProcessContainer localMap (containerName.drop 1) container)
    else
      processNames legacyMap localMap container rest

/-- Embeds the aggregation phase of `SiteList` (utils.go:235): fold the name
classification over the container list starting from two empty maps. The
rendering of the resulting tables is I/O and is not part of the embedding. -/
def SiteList (containers : List APIContainers) : AppMap × AppMap :=
  containers.foldl (fun maps ctr => processNames maps.1 maps.2 ctr ctr.Names) (emptyMap, emptyMap)

/-- Whether a container name matches one of the two known schemes of the
`SiteList` loop. -/
def matchName (containerName : String) : Bool :=
  strStartsWith (containerName.drop 1) "legacy-" ||
    strEndsWith (containerName.drop 1) "-db" || strEndsWith (containerName.drop 1) "-web"

/-- The application key `parts[1] + "-" + parts[2]` that `ProcessContainer`
derives from a container name. -/
def appidOf (containerName : String) : String :=
  let parts := splitOnDash containerName
  parts[1]! ++ "-" ++ parts[2]!

/-- Substring test on the character lists, used to embed Go
`strings.Contains`. -/
def strContainsAux (sub : List Char) : List Char → Bool
  | [] => sub.isEmpty
  | c :: rest => sub.isPrefixOf (c :: rest) || strContainsAux sub rest

/-- Go `strings.Contains(s, sub)`. -/
def strContains (s sub : String) : Bool :=
  strContainsAux sub.toList s.toList

/-- First nonzero public port of a container's port list (the inner loop of
`GetPort`, which returns on the first hit). -/
def firstNonZero : List APIPort → Option Int
  | [] => none
  | port :: rest => if port.PublicPort ≠ 0 then some port.PublicPort else firstNonZero rest

/-- Embeds one attempt of `GetPort` (utils.go:113) over a given container
snapshot (the live docker query is the snapshot parameter). The named return
`publicPort` stays `0` until a nonzero port is returned, so the failure case
yields `(0, some msg)`. A container whose first name drops to a tail
containing `name` is inspected; when it holds no nonzero port the loop simply
falls through to the next container. -/
def GetPort (containers : List APIContainers) (name : String) : Int × Option String :=
  match containers with
  | [] => (0, some (name ++ " container not ready"))
  | ctr :: rest =>
    if strContains ((ctr.Names[0]!).drop 1) name then
      match firstNonZero ctr.Ports with
      | some p => (p, none)
      | none => GetPort rest name
    else
      GetPort rest name

/-- Modelled from the spec: the bounded-retry combinator `try.Do` of
`drud-go/utils/try` (not under `src/`): call `fn` with an attempt counter
starting at 1; stop as soon as an attempt succeeds (`none` error) or the
callback's continue flag is false, returning that attempt's result; otherwise
retry with the counter incremented. The structural `fuel` argument only
bounds the recursion; the `GetPodPort` instantiation stops via its continue
flag before the fuel can run out. The second component counts the calls of
`fn` actually performed. -/
def tryDoAux (fn : Nat → Bool × Int × Option String) :
    Nat → Nat → (Int × Option String) × Nat
  | attempt, 0 => ((fn attempt).2, 1)
  | attempt, fuel + 1 =>
    let r := fn attempt
    if r.2.2 = none ∨ r.1 = false then
      (r.2, 1)
    else
      let next := tryDoAux fn (attempt + 1) fuel
      (next.1, next.2 + 1)

/-- Embeds `GetPodPort` (utils.go:136) with instrumentation: the callback
queries `GetPort` on the attempt's snapshot and continues while
`attempt < 70`; the result is paired with the number of `GetPort` queries
made. The 2-second sleep between failed attempts has no observable effect on
the returned value and is not modelled. -/
def GetPodPortFull (snapshots : Nat → List APIContainers) (name : String) :
    (Int × Option String) × Nat :=
  tryDoAux (fun attempt => (decide (attempt < 70), GetPort (snapshots attempt) name)) 1 70

/-- Embeds the value returned by `GetPodPort` (utils.go:136). -/
def GetPodPort (snapshots : Nat → List APIContainers) (name : String) : Int × Option String :=
  (GetPodPortFull snapshots name).1

/-- The record value that `ProcessContainer` writes at its key: the let-chain
of utils.go:290-317 lifted out of the map update so that its fields can be
reasoned about separately. -/
def processedApp (l : AppMap) (name : String) (c : APIContainers) : LegacyApp :=
  let parts := splitOnDash name
  let appid := parts[1]! ++ "-" ++ parts[2]!
  let app0 : LegacyApp :=
    match l appid with
    | some a => a
    | none =>
      { Name := parts[1]!, Environment := parts[2]!, Status := c.State,
        WebPublicPort := 0, DbPublicPort := 0 }
  let publicPort : Int :=
    c.Ports.foldl (fun acc port => if port.PublicPort ≠ 0 then port.PublicPort else acc) 0
  let app1 := if parts[3]! = "web" then { app0 with WebPublicPort := publicPort } else app0
  let app2 := if parts[3]! = "db" then { app1 with DbPublicPort := publicPort } else app1
  if c.State ≠ "running" then { app2 with Status := c.State } else app2

/-- Stated from the claim's words for comparison with `GetPort`: the first
container whose stripped first name contains the fragment alone determines
the result — its first nonzero published port, or the not-ready failure when
it has none or when no container matches. -/
def getPortClaimed (containers : List APIContainers) (name : String) : Int × Option String :=
  match containers.find? (fun ctr => strContains ((ctr.Names[0]!).drop 1) name) with
  | some ctr =>
    match firstNonZero ctr.Ports with
    | some p => (p, none)
    | none => (0, some (name ++ " container not ready"))
  | none => (0, some (name ++ " container not ready"))

/-- The scan `GetPort` actually performs: the first container that both
matches the fragment and holds a nonzero published port determines the
result; matching containers without a nonzero port are skipped. -/
def getPortScan (containers : List APIContainers) (name : String) : Int × Option String :=
  match containers.find? (fun ctr =>
      strContains ((ctr.Names[0]!).drop 1) name && (firstNonZero ctr.Ports).isSome) with
  | some ctr => ((firstNonZero ctr.Ports).getD 0, none)
  | none => (0, some (name ++ " container not ready"))

/-- Folds `ProcessContainer` over a list of (classified name, container)
facts, the per-fact step of an aggregation pass. -/
def processAll (l : AppMap) : List (String × APIContainers) → AppMap
  | [] => l
  | f :: rest => processAll (ProcessContainer l f.1 f.2) rest

/-- A fact contributes to the record at key `k` exactly when its name has 4
dash segments and derives that application key. -/
def contributes (f : String × APIContainers) (k : String) : Prop :=
  (splitOnDash f.1).length = 4 ∧ appidOf f.1 = k

instance (f : String × APIContainers) (k : String) : Decidable (contributes f k) := by
  unfold contributes; infer_instance

/-! ## Helper lemmas shared by the claims -/

/-- Validity of a legacy environment name unfolds to the three-way disjunction. -/
theorem isValidLegacyEnv_iff (s : String) :
    IsValidLegacyEnv s = true ↔ (s = "default" ∨ s = "staging" ∨ s = "production") := by
  simp [IsValidLegacyEnv, List.any_eq_true]

/-- The file filter is the list filter by the two-component-and-valid-env test. -/
theorem filterNonLegacyFiles_eq_filter (files : List String) :
    FilterNonLegacyFiles files =
      files.filter
        (fun v => decide ((splitN2 v).length = 2) && IsValidLegacyEnv (splitN2 v)[1]!) := by
  induction files with
  | nil => rfl
  | cons v rest ih =>
    simp only [FilterNonLegacyFiles, List.filter]
    by_cases h2 : (splitN2 v).length = 2
    · by_cases hv : IsValidLegacyEnv (splitN2 v)[1]! = true
      · simp [h2, hv, ih]
      · simp [h2, hv, ih]
    · simp [h2, ih]

/-- A name that does not split into exactly 4 dash segments leaves the map
untouched. -/
theorem processContainer_not_four (l : AppMap) (name : String) (c : APIContainers)
    (hlen : (splitOnDash name).length ≠ 4) :
    ProcessContainer l name c = l := by
  simp [ProcessContainer, hlen]

/-- ProcessContainer only ever writes the key `appidOf name`. -/
theorem processContainer_other_key (l : AppMap) (name : String) (c : APIContainers)
    (k : String) (hk : k ≠ appidOf name) :
    ProcessContainer l name c k = l k := by
  by_cases hlen : (splitOnDash name).length = 4
  · simp only [ProcessContainer, hlen, if_pos, mapUpdate, appidOf] at hk ⊢
    simp [hk]
  · simp [ProcessContainer, hlen]

/-- The port-selection loop of ProcessContainer computes the last nonzero
public port (default `init` when no entry is nonzero). -/
theorem foldl_ports_eq_getLastD (ports : List APIPort) (init : Int) :
    ports.foldl (fun acc port => if port.PublicPort ≠ 0 then port.PublicPort else acc) init =
      ((ports.map APIPort.PublicPort).filter (fun p => decide (p ≠ 0))).getLastD init := by
  induction ports generalizing init with
  | nil => rfl
  | cons p rest ih =>
    by_cases h : p.PublicPort = 0
    · have h1 : (p :: rest).foldl
          (fun acc port => if port.PublicPort ≠ 0 then port.PublicPort else acc) init =
          rest.foldl (fun acc port => if port.PublicPort ≠ 0 then port.PublicPort else acc) init := by
        rw [List.foldl_cons]; simp [h]
      have h2 : ((p :: rest).map APIPort.PublicPort).filter (fun q => decide (q ≠ 0)) =
          (rest.map APIPort.PublicPort).filter (fun q => decide (q ≠ 0)) := by
        rw [List.map_cons, List.filter_cons]; simp [h]
      rw [h1, h2, ih]
    · have h1 : (p :: rest).foldl
          (fun acc port => if port.PublicPort ≠ 0 then port.PublicPort else acc) init =
          rest.foldl (fun acc port => if port.PublicPort ≠ 0 then port.PublicPort else acc)
            p.PublicPort := by
        rw [List.foldl_cons]; simp [h]
      have h2 : ((p :: rest).map APIPort.PublicPort).filter (fun q => decide (q ≠ 0)) =
          p.PublicPort :: (rest.map APIPort.PublicPort).filter (fun q => decide (q ≠ 0)) := by
        rw [List.map_cons, List.filter_cons]; simp [h]
      rw [h1, h2, List.getLastD_cons, ih]

/-- On a 4-segment name, ProcessContainer writes `processedApp` at the
application key. -/
theorem processContainer_four (l : AppMap) (name : String) (c : APIContainers)
    (hlen : (splitOnDash name).length = 4) :
    ProcessContainer l name c = mapUpdate l (appidOf name) (processedApp l name c) := by
  simp only [ProcessContainer, processedApp, appidOf, hlen, if_pos]

/-- Reading the written key back after a 4-segment update. -/
theorem processContainer_four_at (l : AppMap) (name : String) (c : APIContainers)
    (hlen : (splitOnDash name).length = 4) :
    ProcessContainer l name c (appidOf name) = some (processedApp l name c) := by
  rw [processContainer_four l name c hlen, mapUpdate, if_pos rfl]

/-- Web port of the written record on a web-role name: the last nonzero
published port. -/
theorem processedApp_web (l : AppMap) (name : String) (c : APIContainers)
    (hweb : (splitOnDash name)[3]! = "web") :
    (processedApp l name c).WebPublicPort =
      ((c.Ports.map APIPort.PublicPort).filter (fun p => decide (p ≠ 0))).getLastD 0 := by
  rw [← foldl_ports_eq_getLastD]
  simp [processedApp, hweb, apply_ite LegacyApp.WebPublicPort]

/-- Db port of the written record on a db-role name: the last nonzero
published port. -/
theorem processedApp_db (l : AppMap) (name : String) (c : APIContainers)
    (hdb : (splitOnDash name)[3]! = "db") :
    (processedApp l name c).DbPublicPort =
      ((c.Ports.map APIPort.PublicPort).filter (fun p => decide (p ≠ 0))).getLastD 0 := by
  rw [← foldl_ports_eq_getLastD]
  simp [processedApp, hdb, apply_ite LegacyApp.DbPublicPort]

/-- Web port is untouched when the role segment is not "web". -/
theorem processedApp_web_other (l : AppMap) (name : String) (c : APIContainers)
    (hweb : (splitOnDash name)[3]! ≠ "web") :
    (processedApp l name c).WebPublicPort =
      (match l (appidOf name) with | some a => a.WebPublicPort | none => 0) := by
  rcases hl : l (appidOf name) with _ | a <;>
    simp only [appidOf] at hl <;>
    simp [processedApp, hweb, hl, apply_ite LegacyApp.WebPublicPort]

/-- Db port is untouched when the role segment is not "db". -/
theorem processedApp_db_other (l : AppMap) (name : String) (c : APIContainers)
    (hdb : (splitOnDash name)[3]! ≠ "db") :
    (processedApp l name c).DbPublicPort =
      (match l (appidOf name) with | some a => a.DbPublicPort | none => 0) := by
  rcases hl : l (appidOf name) with _ | a <;>
    simp only [appidOf] at hl <;>
    simp [processedApp, hdb, hl, apply_ite LegacyApp.DbPublicPort]

/-- A non-running container state overwrites the record's status. -/
theorem processedApp_status_notrunning (l : AppMap) (name : String) (c : APIContainers)
    (hs : c.State ≠ "running") :
    (processedApp l name c).Status = c.State := by
  simp [processedApp, hs, apply_ite LegacyApp.Status]

/-- A running container keeps the previous status (or initializes it to
"running" when the record is new). -/
theorem processedApp_status_running (l : AppMap) (name : String) (c : APIContainers)
    (hs : c.State = "running") :
    (processedApp l name c).Status =
      (match l (appidOf name) with | some a => a.Status | none => c.State) := by
  rcases hl : l (appidOf name) with _ | a <;>
    simp only [appidOf] at hl <;>
    simp [processedApp, hs, hl, apply_ite LegacyApp.Status]

/-- Name and Environment of a freshly created record come from segments 2
and 3. -/
theorem processedApp_new_name_env (l : AppMap) (name : String) (c : APIContainers)
    (hl : l (appidOf name) = none) :
    (processedApp l name c).Name = (splitOnDash name)[1]! ∧
      (processedApp l name c).Environment = (splitOnDash name)[2]! := by
  simp only [appidOf] at hl
  constructor <;>
    simp [processedApp, hl, apply_ite LegacyApp.Name, apply_ite LegacyApp.Environment]

/-! ## The claims -/

/-- C9: FormatPlural returns the singular word exactly when the count is 1 and
the plural word for every other count; in particular
`format(1,"site","sites") = "site"`, `format(0,"site","sites") = "sites"` and
`format(5,"site","sites") = "sites"`. -/
theorem c9_formatPlural_selects_by_count :
    (∀ (count : Int) (single plural : String),
        (count = 1 → FormatPlural count single plural = single) ∧
        (count ≠ 1 → FormatPlural count single plural = plural)) ∧
    FormatPlural 1 "site" "sites" = "site" ∧
    FormatPlural 0 "site" "sites" = "sites" ∧
    FormatPlural 5 "site" "sites" = "sites" := by
  refine ⟨fun count single plural => ⟨fun h => ?_, fun h => ?_⟩, rfl, rfl, rfl⟩
  · simp [FormatPlural, h]
  · simp [FormatPlural, h]

/-- C7: a container name whose stripped form starts with the legacy tag
"legacy-" but does not split on "-" into exactly 4 segments produces no
ApplicationRecord: ProcessContainer leaves the application map unchanged at
every key, with no error reported. -/
theorem c7_malformed_legacy_name_silently_excluded
    (l : AppMap) (container : APIContainers) (name : String) (k : String)
    (hleg : strStartsWith name "legacy-" = true)
    (hlen : (splitOnDash name).length ≠ 4) :
    ProcessContainer l name container k = l k := by
  rw [processContainer_not_four l name container hlen]

/-- Witness for C7: the 3-segment legacy name "legacy-x-y" creates no record. -/
theorem c7_witness :
    ProcessContainer emptyMap "legacy-x-y"
      { Names := ["/legacy-x-y"], Ports := [], State := "running" } "x-y" = none :=
  (c7_malformed_legacy_name_silently_excluded emptyMap
    { Names := ["/legacy-x-y"], Ports := [], State := "running" } "legacy-x-y" "x-y"
    (by decide) (by decide)).trans rfl

/-- C8: FilterNonLegacyFiles keeps an entry exactly when its name splits on
the first dash into two components whose second component is one of
{"default", "staging", "production"}; "proj-staging" passes, "proj-qa" and a
dashless entry are excluded. -/
theorem c8_filterNonLegacyFiles_whitelist :
    (∀ (files : List String) (name : String),
        name ∈ FilterNonLegacyFiles files ↔
          name ∈ files ∧ (splitN2 name).length = 2 ∧
            IsValidLegacyEnv (splitN2 name)[1]! = true) ∧
    (∀ s, IsValidLegacyEnv s = true ↔ (s = "default" ∨ s = "staging" ∨ s = "production")) ∧
    FilterNonLegacyFiles ["proj-staging", "proj-qa", "nodashes"] = ["proj-staging"] := by
  refine ⟨fun files name => ?_, isValidLegacyEnv_iff, by decide⟩
  rw [filterNonLegacyFiles_eq_filter, List.mem_filter]
  simp [and_assoc]

/-- C1 counterexample: for a web-role fact with published ports [0, 8080, 9090]
the recorded public port is 9090 (the last nonzero entry), not 8080 (the first
nonzero entry) as the claim states. -/
theorem c1_counterexample :
    (ProcessContainer emptyMap "legacy-app-dev-web"
        { Names := ["/legacy-app-dev-web"], Ports := [⟨0⟩, ⟨8080⟩, ⟨9090⟩], State := "running" }
        "app-dev").map LegacyApp.WebPublicPort = some 9090 ∧
    ¬ (ProcessContainer emptyMap "legacy-app-dev-web"
        { Names := ["/legacy-app-dev-web"], Ports := [⟨0⟩, ⟨8080⟩, ⟨9090⟩], State := "running" }
        "app-dev").map LegacyApp.WebPublicPort = some 8080 := by
  decide

/-- C1 (amended): the public port recorded for the fact's role is the LAST
entry of its publishedPorts sequence whose publicPort is nonzero (the loop has
no early exit, so later nonzero entries overwrite earlier ones), with 0 when
no entry is nonzero. -/
theorem c1_port_selected_is_last_nonzero
    (l : AppMap) (name : String) (c : APIContainers)
    (hlen : (splitOnDash name).length = 4) :
    ((splitOnDash name)[3]! = "web" →
      (ProcessContainer l name c (appidOf name)).map LegacyApp.WebPublicPort =
        some (((c.Ports.map APIPort.PublicPort).filter (fun p => decide (p ≠ 0))).getLastD 0)) ∧
    ((splitOnDash name)[3]! = "db" →
      (ProcessContainer l name c (appidOf name)).map LegacyApp.DbPublicPort =
        some (((c.Ports.map APIPort.PublicPort).filter (fun p => decide (p ≠ 0))).getLastD 0)) := by
  constructor <;> intro h3 <;> rw [processContainer_four_at l name c hlen, Option.map_some']
  · rw [processedApp_web l name c h3]
  · rw [processedApp_db l name c h3]

/-- Witness for C1 (amended) on ports [0, 8080, 9090]: the web port is 9090. -/
theorem c1_witness :
    (ProcessContainer emptyMap "legacy-app-dev-web"
        { Names := ["/legacy-app-dev-web"], Ports := [⟨0⟩, ⟨8080⟩, ⟨9090⟩], State := "running" }
        (appidOf "legacy-app-dev-web")).map LegacyApp.WebPublicPort = some 9090 :=
  ((c1_port_selected_is_last_nonzero emptyMap "legacy-app-dev-web"
      { Names := ["/legacy-app-dev-web"], Ports := [⟨0⟩, ⟨8080⟩, ⟨9090⟩], State := "running" }
      (by decide)).1 (by decide)).trans (by decide)

/-- C6 counterexample: with a first matching container holding only a zero
published port and a second matching container publishing 8080, GetPort
returns 8080, while the claim's first-matching-container reading predicts the
not-ready failure. -/
theorem c6_counterexample :
    GetPort [{ Names := ["/web0"], Ports := [⟨0⟩], State := "running" },
             { Names := ["/web1"], Ports := [⟨8080⟩], State := "running" }] "web" =
      (8080, none) ∧
    getPortClaimed [{ Names := ["/web0"], Ports := [⟨0⟩], State := "running" },
                    { Names := ["/web1"], Ports := [⟨8080⟩], State := "running" }] "web" =
      (0, some "web container not ready") := by
  constructor <;> rfl

/-- C6 (amended): a GetPort attempt returns the first nonzero published port
of the first container that both contains the fragment in its stripped first
name and holds a nonzero port; matching containers with no nonzero port are
skipped rather than ending the scan, and when no container qualifies the
attempt returns port 0 with the "container not ready" error. -/
theorem c6_getPort_scan (containers : List APIContainers) (name : String) :
    GetPort containers name = getPortScan containers name := by
  induction containers with
  | nil => rfl
  | cons ctr rest ih =>
    by_cases hm : strContains ((ctr.Names[0]!).drop 1) name = true
    · cases hfz : firstNonZero ctr.Ports with
      | some p => simp [GetPort, getPortScan, List.find?_cons, hm, hfz]
      | none =>
        simp only [GetPort, getPortScan, List.find?_cons, hm, hfz] at ih ⊢
        simp [ih, getPortScan]
    · simp only [Bool.not_eq_true] at hm
      simp only [GetPort, getPortScan, List.find?_cons, hm] at ih ⊢
      simp [ih, getPortScan]

/-- C10: on a 4-segment name whose role segment is neither "web" nor "db",
ProcessContainer still creates or updates the record keyed by
segment2-segment3 — including the non-running status overwrite — while
leaving both public-port fields at their previous value (0 for a fresh
record), and touches no other key. -/
theorem c10_unvalidated_role_still_aggregates
    (l : AppMap) (name : String) (c : APIContainers)
    (hlen : (splitOnDash name).length = 4)
    (hweb : (splitOnDash name)[3]! ≠ "web")
    (hdb : (splitOnDash name)[3]! ≠ "db") :
    (ProcessContainer l name c (appidOf name) = some (processedApp l name c) ∧
      (processedApp l name c).WebPublicPort =
        (match l (appidOf name) with | some a => a.WebPublicPort | none => 0) ∧
      (processedApp l name c).DbPublicPort =
        (match l (appidOf name) with | some a => a.DbPublicPort | none => 0) ∧
      (processedApp l name c).Status =
        (if c.State ≠ "running" then c.State
         else (match l (appidOf name) with | some a => a.Status | none => c.State))) ∧
    (∀ k, k ≠ appidOf name → ProcessContainer l name c k = l k) := by
  refine ⟨⟨processContainer_four_at l name c hlen,
    processedApp_web_other l name c hweb,
    processedApp_db_other l name c hdb, ?_⟩,
    fun k hk => processContainer_other_key l name c k hk⟩
  by_cases hs : c.State = "running"
  · rw [if_neg (by simp [hs]), processedApp_status_running l name c hs]
  · rw [if_pos hs, processedApp_status_notrunning l name c hs]

/-- Witness for C10 at the 4-segment name "legacy-app-env-cache" with an
exited container: a record appears under "app-env" with status "exited" and
both ports left at 0. -/
theorem c10_witness :
    (ProcessContainer emptyMap "legacy-app-env-cache"
        { Names := ["/legacy-app-env-cache"], Ports := [⟨123⟩], State := "exited" }
        (appidOf "legacy-app-env-cache") =
      some (processedApp emptyMap "legacy-app-env-cache"
        { Names := ["/legacy-app-env-cache"], Ports := [⟨123⟩], State := "exited" }) ∧
      (processedApp emptyMap "legacy-app-env-cache"
        { Names := ["/legacy-app-env-cache"], Ports := [⟨123⟩], State := "exited" }).WebPublicPort =
        (match emptyMap (appidOf "legacy-app-env-cache") with
          | some a => a.WebPublicPort | none => 0) ∧
      (processedApp emptyMap "legacy-app-env-cache"
        { Names := ["/legacy-app-env-cache"], Ports := [⟨123⟩], State := "exited" }).DbPublicPort =
        (match emptyMap (appidOf "legacy-app-env-cache") with
          | some a => a.DbPublicPort | none => 0) ∧
      (processedApp emptyMap "legacy-app-env-cache"
        { Names := ["/legacy-app-env-cache"], Ports := [⟨123⟩], State := "exited" }).Status =
        (if ("exited" : String) ≠ "running" then "exited"
         else (match emptyMap (appidOf "legacy-app-env-cache") with
          | some a => a.Status | none => "exited"))) ∧
    (∀ k, k ≠ appidOf "legacy-app-env-cache" →
      ProcessContainer emptyMap "legacy-app-env-cache"
        { Names := ["/legacy-app-env-cache"], Ports := [⟨123⟩], State := "exited" } k =
        emptyMap k) :=
  c10_unvalidated_role_still_aggregates emptyMap "legacy-app-env-cache"
    { Names := ["/legacy-app-env-cache"], Ports := [⟨123⟩], State := "exited" }
    (by decide) (by decide) (by decide)

/-- C2 counterexample: the container named "/proj-web" matches the Standard
scheme (no legacy tag, suffix "-web"), yet aggregation produces NO record
under "proj" (the name with the suffix stripped) — the local map stays empty
because "proj-web" has only 2 dash segments. -/
theorem c2_counterexample :
    (SiteList [{ Names := ["/proj-web"], Ports := [⟨80⟩], State := "running" }]).2 "proj" =
      none ∧
    (SiteList [{ Names := ["/a-b-c-web"], Ports := [⟨80⟩], State := "running" }]).2 "a-b-c" =
      none ∧
    (SiteList [{ Names := ["/a-b-c-web"], Ports := [⟨80⟩], State := "running" }]).2 "b-c" ≠
      none := by
  refine ⟨rfl, rfl, ?_⟩
  decide

/-- C2 (amended): a stripped name that does not start with "legacy-" but ends
with "-db" or "-web" is routed to the Standard (local) map via
ProcessContainer; a record results only when the name splits on "-" into
exactly 4 segments, and then it is keyed by segment2-segment3 (the legacy
keying, not the name with the suffix stripped), carrying segment2 as Name and
segment3 as Environment when freshly created; any other segment count leaves
the map unchanged. -/
theorem c2_standard_scheme_routing
    (legacyMap localMap : AppMap) (c : APIContainers) (n : String) (rest : List String)
    (hleg : strStartsWith (n.drop 1) "legacy-" = false)
    (hsuf : (strEndsWith (n.drop 1) "-db" || strEndsWith (n.drop 1) "-web") = true) :
    processNames legacyMap localMap c (n :: rest) =
      (legacyMap, ProcessContainer localMap (n.drop 1) c) ∧
    ((splitOnDash (n.drop 1)).length = 4 →
      ProcessContainer localMap (n.drop 1) c (appidOf (n.drop 1)) =
        some (processedApp localMap (n.drop 1) c) ∧
      (localMap (appidOf (n.drop 1)) = none →
        (processedApp localMap (n.drop 1) c).Name = (splitOnDash (n.drop 1))[1]! ∧
        (processedApp localMap (n.drop 1) c).Environment = (splitOnDash (n.drop 1))[2]!)) ∧
    ((splitOnDash (n.drop 1)).length ≠ 4 →
      ProcessContainer localMap (n.drop 1) c = localMap) := by
  refine ⟨?_, fun hlen => ⟨processContainer_four_at localMap (n.drop 1) c hlen,
      fun hl => processedApp_new_name_env localMap (n.drop 1) c hl⟩,
    fun hlen => processContainer_not_four localMap (n.drop 1) c hlen⟩
  simp [processNames, hleg, hsuf]

/-- Witness for C2 (amended) on the container name "/a-b-c-web": the record
lands under "b-c" with Name "b" and Environment "c". -/
theorem c2_witness :
    processNames emptyMap emptyMap
        { Names := ["/a-b-c-web"], Ports := [⟨80⟩], State := "running" } ["/a-b-c-web"] =
      (emptyMap, ProcessContainer emptyMap "a-b-c-web"
        { Names := ["/a-b-c-web"], Ports := [⟨80⟩], State := "running" }) ∧
    ProcessContainer emptyMap "a-b-c-web"
        { Names := ["/a-b-c-web"], Ports := [⟨80⟩], State := "running" } (appidOf "a-b-c-web") =
      some (processedApp emptyMap "a-b-c-web"
        { Names := ["/a-b-c-web"], Ports := [⟨80⟩], State := "running" }) ∧
    (processedApp emptyMap "a-b-c-web"
        { Names := ["/a-b-c-web"], Ports := [⟨80⟩], State := "running" }).Name = "b" ∧
    (processedApp emptyMap "a-b-c-web"
        { Names := ["/a-b-c-web"], Ports := [⟨80⟩], State := "running" }).Environment = "c" := by
  have h := c2_standard_scheme_routing emptyMap emptyMap
    { Names := ["/a-b-c-web"], Ports := [⟨80⟩], State := "running" } "/a-b-c-web" []
    (by decide) (by decide)
  have h4 := h.2.1 (by decide)
  have hne := h4.2 rfl
  exact ⟨h.1, h4.1, (by decide : (splitOnDash "a-b-c-web")[1]! = "b") ▸ hne.1,
    (by decide : (splitOnDash "a-b-c-web")[2]! = "c") ▸ hne.2⟩

/-- C5: scanning a fact's names, the first name matching a known scheme wins —
the remaining names are not scanned (processing the whole list equals
processing just that one name) — and one ProcessContainer call touches at most
the single key derived from that name, so a fact contributes to at most one
ApplicationRecord. -/
theorem c5_first_matching_name_wins :
    (∀ (legacyMap localMap : AppMap) (c : APIContainers) (pre : List String)
        (n : String) (post : List String),
      (∀ m ∈ pre, matchName m = false) → matchName n = true →
      processNames legacyMap localMap c (pre ++ n :: post) =
        processNames legacyMap localMap c [n]) ∧
    (∀ (l : AppMap) (name : String) (c : APIContainers) (k : String),
      k ≠ appidOf name → ProcessContainer l name c k = l k) := by
  constructor
  · intro legacyMap localMap c pre n post hpre hn
    induction pre with
    | nil =>
      simp only [List.nil_append]
      by_cases h1 : strStartsWith (n.drop 1) "legacy-" = true
      · simp [processNames, h1]
      · simp only [Bool.not_eq_true] at h1
        have h2 : (strEndsWith (n.drop 1) "-db" || strEndsWith (n.drop 1) "-web") = true := by
          simpa [matchName, h1] using hn
        simp [processNames, h1, h2]
    | cons m pre ih =>
      have hm : matchName m = false := hpre m (List.mem_cons_self m pre)
      simp only [matchName, Bool.or_eq_false_iff] at hm
      obtain ⟨⟨ha, hb⟩, hc⟩ := hm
      rw [List.cons_append,
        show processNames legacyMap localMap c (m :: (pre ++ n :: post)) =
            processNames legacyMap localMap c (pre ++ n :: post) from by
          simp [processNames, ha, hb, hc]]
      exact ih (fun x hx => hpre x (List.mem_cons_of_mem m hx))
  · exact fun l name c k hk => processContainer_other_key l name c k hk

/-- A fact that does not contribute to key `k` leaves the map unchanged
at `k`. -/
theorem processContainer_non_contributing (l : AppMap) (f : String × APIContainers)
    (k : String) (h : ¬ contributes f k) :
    ProcessContainer l f.1 f.2 k = l k := by
  by_cases hlen : (splitOnDash f.1).length = 4
  · have hk : k ≠ appidOf f.1 := fun he => h ⟨hlen, he.symm⟩
    exact processContainer_other_key l f.1 f.2 k hk
  · rw [processContainer_not_four l f.1 f.2 hlen]

/-- A contributing fact with a non-running state writes its state into the
record's status unconditionally. -/
theorem processContainer_contrib_notrunning (l : AppMap) (f : String × APIContainers)
    (k : String) (h : contributes f k) (hs : f.2.State ≠ "running") :
    ProcessContainer l f.1 f.2 k = some (processedApp l f.1 f.2) ∧
      (processedApp l f.1 f.2).Status = f.2.State := by
  obtain ⟨hlen, hkey⟩ := h
  exact ⟨hkey ▸ processContainer_four_at l f.1 f.2 hlen,
    processedApp_status_notrunning l f.1 f.2 hs⟩

/-- A contributing fact in state "running" keeps the existing record's
status. -/
theorem processContainer_contrib_running (l : AppMap) (f : String × APIContainers)
    (k : String) (h : contributes f k) (hs : f.2.State = "running")
    (a : LegacyApp) (hl : l k = some a) :
    ProcessContainer l f.1 f.2 k = some (processedApp l f.1 f.2) ∧
      (processedApp l f.1 f.2).Status = a.Status := by
  obtain ⟨hlen, hkey⟩ := h
  refine ⟨hkey ▸ processContainer_four_at l f.1 f.2 hlen, ?_⟩
  rw [processedApp_status_running l f.1 f.2 hs, hkey, hl]

/-- Processing facts whose contributing members are all "running" preserves a
non-running status already recorded at `k`. -/
theorem processAll_preserves_status (facts : List (String × APIContainers)) :
    ∀ (l : AppMap) (k : String) (a : LegacyApp),
      l k = some a → a.Status ≠ "running" →
      (∀ f ∈ facts, contributes f k → f.2.State = "running") →
      ∃ b, processAll l facts k = some b ∧ b.Status = a.Status := by
  induction facts with
  | nil => exact fun l k a hl _ _ => ⟨a, hl, rfl⟩
  | cons g rest ih =>
    intro l k a hl hns hrun
    by_cases hg : contributes g k
    · have hgs : g.2.State = "running" := hrun g (List.mem_cons_self g rest) hg
      obtain ⟨heq, hstat⟩ := processContainer_contrib_running l g k hg hgs a hl
      obtain ⟨b, hb, hbs⟩ := ih (ProcessContainer l g.1 g.2) k (processedApp l g.1 g.2)
        heq (by rw [hstat]; exact hns) (fun f hf => hrun f (List.mem_cons_of_mem g hf))
      exact ⟨b, by simpa [processAll] using hb, hbs.trans hstat⟩
    · have heq : ProcessContainer l g.1 g.2 k = l k :=
        processContainer_non_contributing l g k hg
      obtain ⟨b, hb, hbs⟩ := ih (ProcessContainer l g.1 g.2) k a (heq.trans hl) hns
        (fun f hf => hrun f (List.mem_cons_of_mem g hf))
      exact ⟨b, by simpa [processAll] using hb, hbs⟩

/-- Once any contributing fact is non-running, the final record at `k` exists,
is non-running, and carries the state of some contributing non-running
fact — independently of the processing order. -/
theorem processAll_infected (facts : List (String × APIContainers)) :
    ∀ (l : AppMap) (k : String),
      (∃ f ∈ facts, contributes f k ∧ f.2.State ≠ "running") →
      ∃ b, processAll l facts k = some b ∧ b.Status ≠ "running" ∧
        ∃ f ∈ facts, contributes f k ∧ f.2.State = b.Status := by
  induction facts with
  | nil => rintro l k ⟨f, hf, _⟩; exact absurd hf (List.not_mem_nil f)
  | cons g rest ih =>
    intro l k hex
    by_cases hrest : ∃ f ∈ rest, contributes f k ∧ f.2.State ≠ "running"
    · obtain ⟨b, hb, hbs, f, hf, hfc, hfs⟩ := ih (ProcessContainer l g.1 g.2) k hrest
      exact ⟨b, by simpa [processAll] using hb, hbs, f, List.mem_cons_of_mem g hf, hfc, hfs⟩
    · obtain ⟨f, hf, hfc, hfs⟩ := hex
      have hfg : f = g := by
        rcases List.mem_cons.mp hf with h | h
        · exact h
        · exact absurd ⟨f, h, hfc, hfs⟩ hrest
      subst hfg
      obtain ⟨heq, hstat⟩ := processContainer_contrib_notrunning l f k hfc hfs
      have hrun : ∀ f2 ∈ rest, contributes f2 k → f2.2.State = "running" := by
        intro f2 h2 hc2
        by_contra hne
        exact hrest ⟨f2, h2, hc2, hne⟩
      obtain ⟨b, hb, hbs⟩ := processAll_preserves_status rest (ProcessContainer l f.1 f.2) k
        (processedApp l f.1 f.2) heq (by rw [hstat]; exact hfs) hrun
      exact ⟨b, by simpa [processAll] using hb, by rw [hbs, hstat]; exact hfs,
        f, List.mem_cons_self f rest, hfc, by rw [hbs, hstat]⟩

/-- C4: the record's status is non-running as soon as any contributing fact
is non-running (and is then the state of a contributing fact), in any
processing order; a "running" fact never overwrites a recorded non-running
status; and on the running-web/exited-db example the status is "exited" in
both orders. -/
theorem c4_nonrunning_status_wins :
    (∀ (facts : List (String × APIContainers)) (l : AppMap) (k : String),
      (∃ f ∈ facts, contributes f k ∧ f.2.State ≠ "running") →
      ∃ b, processAll l facts k = some b ∧ b.Status ≠ "running" ∧
        ∃ f ∈ facts, contributes f k ∧ f.2.State = b.Status) ∧
    (∀ (l : AppMap) (name : String) (c : APIContainers) (k : String) (a : LegacyApp),
      l k = some a → a.Status ≠ "running" → c.State = "running" →
      ∃ b, ProcessContainer l name c k = some b ∧ b.Status = a.Status) ∧
    (processAll emptyMap
        [("legacy-app-dev-web",
            { Names := ["/legacy-app-dev-web"], Ports := [⟨8080⟩], State := "running" }),
         ("legacy-app-dev-db",
            { Names := ["/legacy-app-dev-db"], Ports := [⟨3306⟩], State := "exited" })]
        "app-dev").map LegacyApp.Status = some "exited" ∧
    (processAll emptyMap
        [("legacy-app-dev-db",
            { Names := ["/legacy-app-dev-db"], Ports := [⟨3306⟩], State := "exited" }),
         ("legacy-app-dev-web",
            { Names := ["/legacy-app-dev-web"], Ports := [⟨8080⟩], State := "running" })]
        "app-dev").map LegacyApp.Status = some "exited" := by
  refine ⟨fun facts l k => processAll_infected facts l k, ?_, by decide, by decide⟩
  intro l name c k a hl hns hrun
  by_cases hlen : (splitOnDash name).length = 4
  · by_cases hk : k = appidOf name
    · subst hk
      refine ⟨processedApp l name c, processContainer_four_at l name c hlen, ?_⟩
      rw [processedApp_status_running l name c hrun, hl]
    · exact ⟨a, (processContainer_other_key l name c k hk).trans hl, rfl⟩
  · exact ⟨a, (processContainer_not_four l name c hlen).symm ▸ hl, rfl⟩

/-- Stopping behaviour of the retry combinator: if every attempt before `j`
fails with the continue flag up, and attempt `j` succeeds or has its continue
flag down, the loop returns attempt `j`'s result after exactly `j - a + 1`
calls. -/
theorem tryDoAux_first_stop (fn : Nat → Bool × Int × Option String) :
    ∀ (fuel a j : Nat), a ≤ j → j ≤ a + fuel →
      (∀ k, a ≤ k → k < j → (fn k).2.2 ≠ none ∧ (fn k).1 = true) →
      ((fn j).2.2 = none ∨ (fn j).1 = false) →
      tryDoAux fn a fuel = ((fn j).2, j - a + 1) := by
  intro fuel
  induction fuel with
  | zero =>
    intro a j haj hle _ _
    have hja : j = a := Nat.le_antisymm hle haj
    subst hja
    simp [tryDoAux]
  | succ fuel ih =>
    intro a j haj hle hfail hstop
    rcases Nat.eq_or_lt_of_le haj with he | hlt
    · subst he
      simp only [tryDoAux]
      rw [if_pos hstop]
      simp
    · have hf := hfail a (Nat.le_refl a) hlt
      simp only [tryDoAux]
      rw [if_neg (by
        rintro (h | h)
        · exact hf.1 h
        · rw [hf.2] at h; cases h)]
      rw [ih (a + 1) j hlt (by omega)
        (fun k hk1 hk2 => hfail k (by omega) hk2) hstop]
      simp only [Prod.mk.injEq]
      exact ⟨trivial, by omega⟩

/-- C3: GetPodPort performs at most 70 GetPort queries; when attempts 1..69
fail and attempt 70 succeeds it returns attempt 70's result with exactly 70
queries; when all 70 attempts fail it returns the 70th attempt's failure with
exactly 70 queries (no 71st query); and a first success at attempt j ≤ 70
returns immediately after exactly j queries. -/
theorem c3_getPodPort_70_attempts :
    (∀ (snapshots : Nat → List APIContainers) (name : String),
      (∀ k, 1 ≤ k → k ≤ 69 → (GetPort (snapshots k) name).2 ≠ none) →
      (GetPort (snapshots 70) name).2 = none →
      GetPodPortFull snapshots name = (GetPort (snapshots 70) name, 70)) ∧
    (∀ (snapshots : Nat → List APIContainers) (name : String),
      (∀ k, 1 ≤ k → k ≤ 70 → (GetPort (snapshots k) name).2 ≠ none) →
      GetPodPortFull snapshots name = (GetPort (snapshots 70) name, 70)) ∧
    (∀ (snapshots : Nat → List APIContainers) (name : String) (j : Nat),
      1 ≤ j → j ≤ 70 →
      (∀ k, 1 ≤ k → k < j → (GetPort (snapshots k) name).2 ≠ none) →
      (GetPort (snapshots j) name).2 = none →
      GetPodPortFull snapshots name = (GetPort (snapshots j) name, j)) ∧
    (∀ (snapshots : Nat → List APIContainers) (name : String),
      (GetPodPortFull snapshots name).2 ≤ 70) := by
  have main : ∀ (snapshots : Nat → List APIContainers) (name : String) (j : Nat),
      1 ≤ j → j ≤ 70 →
      (∀ k, 1 ≤ k → k < j → (GetPort (snapshots k) name).2 ≠ none) →
      ((GetPort (snapshots j) name).2 = none ∨ j = 70) →
      GetPodPortFull snapshots name = (GetPort (snapshots j) name, j) := by
    intro snapshots name j h1 h70 hfail hstop
    have hres := tryDoAux_first_stop
      (fun attempt => (decide (attempt < 70), GetPort (snapshots attempt) name))
      70 1 j h1 (by omega)
      (fun k hk1 hk2 => ⟨hfail k hk1 hk2, by simp; omega⟩)
      (by
        rcases hstop with h | h
        · exact Or.inl h
        · right; subst h; simp)
    have hj : j - 1 + 1 = j := by omega
    rw [hj] at hres
    exact hres
  refine ⟨fun s n hf hs =>
      main s n 70 (by omega) (by omega) (fun k h1 h2 => hf k h1 (by omega)) (Or.inl hs),
    fun s n hf =>
      main s n 70 (by omega) (by omega) (fun k h1 h2 => hf k h1 (by omega)) (Or.inr rfl),
    fun s n j h1 h2 hf hs => main s n j h1 h2 hf (Or.inl hs),
    ?_⟩
  intro snapshots name
  have hex : ∃ m : Nat,
      (GetPort (snapshots (m + 1)) name).2 = none ∨ ¬ (m + 1 < 70) :=
    ⟨69, Or.inr (by omega)⟩
  have hm0 : Nat.find hex ≤ 69 := Nat.find_min' hex (Or.inr (by omega))
  have hfail : ∀ k, 1 ≤ k → k < Nat.find hex + 1 →
      (GetPort (snapshots k) name).2 ≠ none := by
    intro k hk1 hk2 hnone
    have hmin := Nat.find_min hex (show k - 1 < Nat.find hex by omega)
    have hk : k - 1 + 1 = k := by omega
    rw [hk] at hmin
    exact hmin (Or.inl hnone)
  have hstop : (GetPort (snapshots (Nat.find hex + 1)) name).2 = none ∨
      Nat.find hex + 1 = 70 := by
    rcases Nat.find_spec hex with h | h
    · exact Or.inl h
    · exact Or.inr (by omega)
  have hres := main snapshots name (Nat.find hex + 1) (by omega) (by omega) hfail hstop
  rw [hres]
  omega
